import Mathlib

/-!
# ZUGFeRD-XML-Extractor: verification of the specified behaviour

A shallow embedding of the ZUGFeRD XML extractor (Go) and proofs about it.

Modelling conventions:
* Go byte strings (`[]byte`, `string`) are modelled as Lean `String`s viewed as
  their character lists; all inputs of interest are ASCII, and `strings.ToLower`
  is modelled by `Char.toLower` applied characterwise.
* Go maps (`map[string][]byte`) are modelled as association lists
  `List (String × String)` whose element order stands for the map's iteration
  order; a map lookup is the first entry with a matching key.
* Fallible Go functions returning `(T, error)` are modelled with `Except`.
* Strategy bodies and workers that perform I/O (pdfcpu calls, temp
  directories, file writes) are modelled by passing their observable outcomes
  as explicit arguments.
-/

namespace GoStr

/-- Model of Go `strings.ToLower` (characterwise; ASCII-faithful). -/
def toLower (s : String) : String :=
  String.mk (s.data.map Char.toLower)

/-- First index of `pat` in a character list, as in Go `strings.Index`
(`none` stands for Go's `-1`). -/
def strIndexL (pat : List Char) : List Char → Option Nat
  | [] => if pat.isEmpty then some 0 else none
  | c :: rest =>
      if pat.isPrefixOf (c :: rest) then some 0
      else (strIndexL pat rest).map (· + 1)

/-- Model of Go `strings.Index` (position of first occurrence). -/
def index (s pat : String) : Option Nat :=
  strIndexL pat.data s.data

/-- Model of Go `strings.Contains`. -/
def contains (s pat : String) : Bool :=
  (index s pat).isSome

/-- Model of Go `strings.HasSuffix`. -/
def hasSuffix (s suffix : String) : Bool :=
  suffix.data.isSuffixOf s.data

/-- Model of Go `strings.TrimSuffix`. -/
def trimSuffix (s suffix : String) : String :=
  if hasSuffix s suffix then
    String.mk (s.data.take (s.data.length - suffix.data.length))
  else s

end GoStr

/-- `KnownXMLFilenames` from `internal/extractor`: the canonical attachment
names, highest priority first. -/
def KnownXMLFilenames : List String :=
  ["ZUGFeRD-invoice.xml",
   "zugferd-invoice.xml",
   "factur-x.xml",
   "xrechnung.xml",
   "cii.xml"]

/-- The indicator list of `isZUGFeRDXML` / `Validator.IsZUGFeRDXML`, verbatim
from the source (including the duplicated `"crossindustryinvoice"`). -/
def indicators : List String :=
  ["crossindustrydocument",
   "crossindustryinvoice",
   "urn:ferd:",
   "urn:cen.eu:en16931",
   "zugferd",
   "factur-x",
   "xrechnung",
   "rsm:crossindustrydocument",
   "crossindustryinvoice"]

/-- The eight-element indicator set named by the specification. -/
def specIndicators : List String :=
  ["crossindustrydocument",
   "crossindustryinvoice",
   "urn:ferd:",
   "urn:cen.eu:en16931",
   "zugferd",
   "factur-x",
   "xrechnung",
   "rsm:crossindustrydocument"]

/-- `ZUGFeRDExtractor.isZUGFeRDXML` (internal/extractor): counts matching
indicators in the lower-cased content and accepts when at least one matched.
The verbose diagnostics do not influence the result and are omitted. -/
def isZUGFeRDXML (data : String) : Bool :=
  if data.length = 0 then false
  else
    let contentLower := GoStr.toLower data
    let foundIndicators :=
      indicators.countP (fun indicator => GoStr.contains contentLower (GoStr.toLower indicator))
    decide (0 < foundIndicators)

/-- `Validator.IsZUGFeRDXML` (internal/validation/validator.go): returns on the
first matching indicator. -/
def ValidatorIsZUGFeRDXML (data : String) : Bool :=
  if data.length = 0 then false
  else
    indicators.any (fun indicator => GoStr.contains (GoStr.toLower data) (GoStr.toLower indicator))

/-- `ZUGFeRDExtractor.validateZUGFeRDXML` (internal/extractor): strict
AND-combined structural check. -/
def validateZUGFeRDXML (data : String) : Bool :=
  let hasXMLDecl := GoStr.contains data "<?xml"
  let hasRootElement :=
    GoStr.contains data "CrossIndustryDocument" || GoStr.contains data "CrossIndustryInvoice"
  let hasNamespace :=
    GoStr.contains data "xmlns:" &&
      (GoStr.contains data "urn:ferd:" || GoStr.contains data "urn:cen.eu:en16931")
  hasXMLDecl && hasRootElement && hasNamespace

/-- `Validator.ValidateZUGFeRDXML` (internal/validation/validator.go): the
independently duplicated strict check. -/
def ValidatorValidateZUGFeRDXML (data : String) : Bool :=
  let hasXMLDecl := GoStr.contains data "<?xml"
  let hasRootElement :=
    GoStr.contains data "CrossIndustryDocument" || GoStr.contains data "CrossIndustryInvoice"
  let hasNamespace :=
    GoStr.contains data "xmlns:" &&
      (GoStr.contains data "urn:ferd:" || GoStr.contains data "urn:cen.eu:en16931")
  hasXMLDecl && hasRootElement && hasNamespace

/-- A Go `map[string][]byte` of attachments, modelled as an association list
whose element order stands for the map's iteration order. -/
abbrev AttachmentSet := List (String × String)

/-- Go map lookup `attachments[name]`: the first entry with a matching key. -/
def lookupAtt (attachments : AttachmentSet) (name : String) : Option String :=
  (attachments.find? (fun p => p.1 == name)).map Prod.snd

/-- The body of the first loop of `findZUGFeRDXML`: a canonical name yields a
candidate exactly when it is present and its bytes pass the sniff predicate. -/
def knownNameCandidate (attachments : AttachmentSet) (knownName : String) :
    Option (String × String) :=
  match lookupAtt attachments knownName with
  | some data => if isZUGFeRDXML data then some (data, knownName) else none
  | none => none

/-- First loop of `findZUGFeRDXML`: scan `KnownXMLFilenames` in priority
order. -/
def findByKnownName (attachments : AttachmentSet) : Option (String × String) :=
  KnownXMLFilenames.findSome? (knownNameCandidate attachments)

/-- The body of the second loop of `findZUGFeRDXML`: any attachment whose name
ends in `.xml` (case-insensitively) and whose bytes pass the sniff predicate. -/
def xmlNameCandidate (entry : String × String) : Option (String × String) :=
  if GoStr.hasSuffix (GoStr.toLower entry.1) ".xml" then
    (if isZUGFeRDXML entry.2 then some (entry.2, entry.1) else none)
  else none

/-- Second loop of `findZUGFeRDXML`: scan the attachments in map-iteration
order. -/
def findByXmlName (attachments : AttachmentSet) : Option (String × String) :=
  attachments.findSome? xmlNameCandidate

/-- `ZUGFeRDExtractor.findZUGFeRDXML` (internal/extractor): canonical names
first, then any `.xml`-named attachment, else an error carrying every
attachment name. -/
def findZUGFeRDXML (attachments : AttachmentSet) : Except (List String) (String × String) :=
  match findByKnownName attachments with
  | some r => Except.ok r
  | none =>
    match findByXmlName attachments with
    | some r => Except.ok r
    | none => Except.error (attachments.map Prod.fst)

/-- Outcome of the strategy-chain portion of `ExtractXML` (lines 38–67 of
internal/extractor): either every strategy errored, or the first error-free
strategy's attachment set was empty, or extraction proceeds with it. -/
inductive ChainOutcome where
  | allFailed (msg : String)
  | noEmbedded
  | proceed (attachments : AttachmentSet)
deriving DecidableEq

/-- The `err != nil` cascade of `ExtractXML`: take the first strategy result
that is not an error; if all three error, aggregate. The strategies perform
I/O, so their observable outcomes are passed as arguments. -/
def tryStrategies (standard relaxed manual : Except String AttachmentSet) :
    Except String AttachmentSet :=
  match standard with
  | Except.ok attachments => Except.ok attachments
  | Except.error _ =>
    match relaxed with
    | Except.ok attachments => Except.ok attachments
    | Except.error _ =>
      match manual with
      | Except.ok attachments => Except.ok attachments
      | Except.error e => Except.error ("alle Extraktionsmethoden fehlgeschlagen: " ++ e)

/-- `ExtractXML`'s chain followed by its `len(attachments) == 0` check. -/
def extractXMLChain (standard relaxed manual : Except String AttachmentSet) : ChainOutcome :=
  match tryStrategies standard relaxed manual with
  | Except.error e => ChainOutcome.allFailed e
  | Except.ok attachments =>
    if attachments.length = 0 then ChainOutcome.noEmbedded
    else ChainOutcome.proceed attachments

/-- `xmlStartPatterns` of `extractAttachmentsManual`. -/
def xmlStartPatterns : List String :=
  ["<?xml version=\"1.0\"",
   "<rsm:CrossIndustryDocument",
   "<rsm:CrossIndustryInvoice"]

/-- `endPatterns` of `extractXMLFromPosition`. -/
def endPatterns : List String :=
  ["</rsm:CrossIndustryDocument>",
   "</rsm:CrossIndustryInvoice>",
   "</CrossIndustryDocument>",
   "</CrossIndustryInvoice>"]

/-- One iteration of `extractXMLFromPosition`'s end-marker loop: lower the
current `endPos` to `idx + len(pattern)` when that candidate end is smaller. -/
def endCandidateStep (content : String) (endPos : Nat) (pattern : String) : Nat :=
  match GoStr.index content pattern with
  | some idx => if idx + pattern.length < endPos then idx + pattern.length else endPos
  | none => endPos

/-- `ZUGFeRDExtractor.extractXMLFromPosition` (internal/extractor): slice from
`startPos` to the smallest end offset of any closing-tag pattern; the empty
string models Go's `nil` result. -/
def extractXMLFromPosition (data : String) (startPos : Nat) : String :=
  if data.length ≤ startPos then ""
  else
    let content := String.mk (data.data.drop startPos)
    let maxLength := content.length
    let endPos := endPatterns.foldl (endCandidateStep content) maxLength
    if endPos < maxLength then String.mk (content.data.take endPos) else ""

/-- The end offset (one past the closing tag) of the first occurrence of
`pattern` in `content`, used to state properties of the end-marker loop. -/
def candEnd (content pattern : String) : Option Nat :=
  (GoStr.index content pattern).map (fun idx => idx + pattern.length)

/-- `ZUGFeRDExtractor.guessXMLFilename` (internal/extractor). -/
def guessXMLFilename (data : String) : String :=
  let content := GoStr.toLower data
  if GoStr.contains content "xrechnung" then "xrechnung.xml"
  else if GoStr.contains content "factur-x" then "factur-x.xml"
  else if GoStr.contains content "zugferd" then
    (if GoStr.contains content "urn:ferd:pdfa:crossindustrydocument:invoice:1p0" then
      "ZUGFeRD-invoice.xml"
    else "zugferd-invoice.xml")
  else "invoice.xml"

/-- Go map assignment `attachments[k] = v` on the association-list model. -/
def mapInsert (attachments : AttachmentSet) (k v : String) : AttachmentSet :=
  if attachments.any (fun p => p.1 == k) then
    attachments.map (fun p => if p.1 == k then (k, v) else p)
  else attachments ++ [(k, v)]

/-- One iteration of `extractAttachmentsManual`'s pattern loop (the Go local
`xmlData := z.extractXMLFromPosition(data, idx)` is inlined). -/
def manualStep (data : String) (attachments : AttachmentSet) (pattern : String) : AttachmentSet :=
  match GoStr.index data pattern with
  | some idx =>
    if decide (0 < (extractXMLFromPosition data idx).length) &&
        isZUGFeRDXML (extractXMLFromPosition data idx) then
      mapInsert attachments (guessXMLFilename (extractXMLFromPosition data idx))
        (extractXMLFromPosition data idx)
    else attachments
  | none => attachments

/-- `ZUGFeRDExtractor.extractAttachmentsManual` (internal/extractor), given the
container's raw bytes. -/
def extractAttachmentsManual (data : String) : Except String AttachmentSet :=
  let attachments := xmlStartPatterns.foldl (manualStep data) []
  if attachments.length = 0 then
    Except.error "manuelle Extraktion fand keine XML-Anhaenge"
  else Except.ok attachments

/-- The `ZUGFeRDExtractor` receiver struct (internal/extractor). -/
structure ZUGFeRDExtractor where
  InputPath : String
  OutputPath : String
  Verbose : Bool

/-- Model of Go `filepath.Base` for slash-separated paths (no volume names). -/
def filepathBase (p : String) : String :=
  if p.data.isEmpty then "."
  else
    let trimmed := (p.data.reverse.dropWhile (fun c => c = '/')).reverse
    if trimmed.isEmpty then "/"
    else String.mk ((trimmed.reverse.takeWhile (fun c => c ≠ '/')).reverse)

/-- Model of Go `filepath.Dir` for slash-separated paths without repeated or
trailing separators. -/
def filepathDir (p : String) : String :=
  let rest := (p.data.reverse.dropWhile (fun c => c ≠ '/')).reverse
  if rest.isEmpty then "."
  else if rest = ['/'] then "/"
  else String.mk rest.dropLast

/-- Model of Go `filepath.Ext`: the suffix of the final element from its last
dot, or empty. -/
def filepathExt (p : String) : String :=
  let seg := p.data.reverse.takeWhile (fun c => c ≠ '/')
  if seg.any (fun c => c = '.') then
    String.mk ('.' :: (seg.takeWhile (fun c => c ≠ '.')).reverse)
  else ""

/-- Model of Go `filepath.Join` on two elements, for already-clean paths. -/
def filepathJoin (dir name : String) : String :=
  if dir = "" then name
  else if name = "" then dir
  else if dir = "." then name
  else if dir.data.getLast? = some '/' then dir ++ name
  else dir ++ "/" ++ name

/-- `ZUGFeRDExtractor.isStandardXMLFilename` (internal/extractor). -/
def isStandardXMLFilename (filename : String) : Bool :=
  KnownXMLFilenames.any (fun knownName => filename == knownName)

/-- `ZUGFeRDExtractor.generateOutputPath` (internal/extractor). -/
def generateOutputPath (z : ZUGFeRDExtractor) (xmlFilename : String) : String :=
  if z.OutputPath ≠ "" then z.OutputPath
  else
    let dir := filepathDir z.InputPath
    let baseName := GoStr.trimSuffix (filepathBase z.InputPath) (filepathExt z.InputPath)
    let outputFilename :=
      if isStandardXMLFilename xmlFilename then xmlFilename else baseName ++ ".xml"
    filepathJoin dir outputFilename

/-- The `BatchProcessor` struct (internal/extractor batch source). -/
structure BatchProcessor where
  InputPattern : String
  OutputDir : String
  Workers : Nat
  Verbose : Bool

/-- The loop condition of `ProcessBatch`'s filter (internal/extractor batch
source): `strings.ToLower(filepath.Ext(file)) == ".pdf"`. -/
def isPdfFile (file : String) : Bool :=
  GoStr.toLower (filepathExt file) == ".pdf"

/-- The `pdfFiles` accumulation loop of `ProcessBatch`: keep exactly the glob
entries whose extension lower-cases to `.pdf`. -/
def pdfFilter (files : List String) : List String :=
  files.filter isPdfFile

/-- Observable outcome of `ProcessBatch`: `noInputs` for either of its two
early returns (empty glob result, or empty `.pdf`-filtered set — both emit the
same "Keine PDF-Dateien gefunden" error before any worker starts), or a run
with the queued inputs and the aggregated success/failure tallies. -/
inductive BatchOutcome where
  | noInputs
  | run (queue : List String) (successful failed : Nat)
deriving DecidableEq

/-- `BatchProcessor.ProcessBatch` (internal/extractor batch source), given the
glob result: error on an empty glob result, filter to `.pdf` entries, error if
nothing remains, otherwise enqueue exactly the filtered entries and tally the
per-file outcomes; the workers' extractions perform I/O, so each file's
`err == nil` outcome is passed in as `extractOk`. -/
def processBatch (bp : BatchProcessor) (files : List String)
    (extractOk : String → Bool) : BatchOutcome :=
  if files.length = 0 then BatchOutcome.noInputs
  else if (pdfFilter files).length = 0 then BatchOutcome.noInputs
  else
    BatchOutcome.run (pdfFilter files) ((pdfFilter files).countP extractOk)
      ((pdfFilter files).countP (fun f => !(extractOk f)))

/-- The `outputPath` computation of `BatchProcessor.worker` (internal/extractor
batch source): `Join(OutputDir, TrimSuffix(Base(filename), Ext(Base)) + ".xml")`
when an output directory is configured, else the empty string. -/
def workerOutputSetting (bp : BatchProcessor) (filename : String) : String :=
  if bp.OutputDir ≠ "" then
    filepathJoin bp.OutputDir
      (GoStr.trimSuffix (filepathBase filename) (filepathExt (filepathBase filename)) ++ ".xml")
  else ""

/-- The output path a worker-run extraction writes to: `worker` constructs a
`ZUGFeRDExtractor` with `OutputPath` set to `workerOutputSetting`, and
`ExtractXML` persists to `generateOutputPath` of that extractor. -/
def workerOutputPath (bp : BatchProcessor) (filename discoveredName : String) : String :=
  generateOutputPath ⟨filename, workerOutputSetting bp filename, bp.Verbose⟩ discoveredName

/-- An attachment set holding both `zugferd-invoice.xml` and `cii.xml`, each
with indicator-passing content (the spec's priority example). -/
def demoBothCanonical : AttachmentSet :=
  [("cii.xml", "crossindustryinvoice data"), ("zugferd-invoice.xml", "zugferd content")]

/-- An attachment set whose first passing canonical name is `factur-x.xml`. -/
def demoPriorityAtts : AttachmentSet :=
  [("cii.xml", "no indicators here"), ("factur-x.xml", "factur-x body")]

/-- Two iteration orders of one attachment map with two passing non-canonical
`.xml` entries. -/
def ndA : AttachmentSet := [("a.xml", "zugferd"), ("b.xml", "xrechnung")]

/-- The other iteration order of the map underlying `ndA`. -/
def ndB : AttachmentSet := [("b.xml", "xrechnung"), ("a.xml", "zugferd")]

/-- Two iteration orders of a map holding a passing canonical name. -/
def wA : AttachmentSet := [("x.pdf", "junk"), ("factur-x.xml", "factur-x body")]

/-- The other iteration order of the map underlying `wA`. -/
def wB : AttachmentSet := [("factur-x.xml", "factur-x body"), ("x.pdf", "junk")]

/-- A non-empty attachment set for chain scenarios. -/
def goodAtts : AttachmentSet := [("factur-x.xml", "factur-x body")]

/-- A container blob with one start marker and one closing tag. -/
def demoManual : String := "<rsm:CrossIndustryInvoice>x</CrossIndustryInvoice>y"

/-- A per-input extractor outcome oracle for the batch example. -/
def demoExtractOk : String → Bool := fun f => f == "a.pdf"

/-- The batch processor of the batch example. -/
def demoBp : BatchProcessor := ⟨"*.pdf", "", 4, false⟩

theorem strLength_eq_zero_iff (s : String) : s.length = 0 ↔ s = "" := by
  constructor
  · intro h
    cases s with
    | mk data =>
      cases data with
      | nil => rfl
      | cons c cs => simp [String.length] at h
  · intro h
    subst h
    rfl

theorem any_eq_decide_countP {α : Type} (l : List α) (p : α → Bool) :
    l.any p = decide (0 < l.countP p) := by
  induction l with
  | nil => simp
  | cons a t ih =>
    by_cases h : p a = true
    · simp [h, List.countP_cons]
    · simp only [List.any_cons, List.countP_cons, h, Bool.false_or, if_neg]
      simpa using ih

theorem toLower_indicator_fixed : ∀ i ∈ indicators, GoStr.toLower i = i := by decide

theorem indicator_mem_spec : ∀ i ∈ indicators, i ∈ specIndicators := by decide

theorem spec_mem_indicator : ∀ i ∈ specIndicators, i ∈ indicators := by decide

theorem indicator_transfer (low : String) :
    (∃ i ∈ indicators, GoStr.contains low (GoStr.toLower i) = true) ↔
    (∃ i ∈ specIndicators, GoStr.contains low i = true) := by
  constructor
  · rintro ⟨i, hi, hp⟩
    rw [toLower_indicator_fixed i hi] at hp
    exact ⟨i, indicator_mem_spec i hi, hp⟩
  · rintro ⟨i, hi, hp⟩
    have hi2 : i ∈ indicators := spec_mem_indicator i hi
    exact ⟨i, hi2, by rw [toLower_indicator_fixed i hi2]; exact hp⟩

/-- C6: the sniff predicate rejects empty input and otherwise accepts exactly
when the lower-cased content contains at least one of the eight indicator
substrings — a single match suffices. -/
theorem isZUGFeRDXML_c6 (data : String) :
    isZUGFeRDXML data = true ↔
      (data ≠ "" ∧ ∃ i ∈ specIndicators, GoStr.contains (GoStr.toLower data) i = true) := by
  by_cases h0 : data.length = 0
  · have : data = "" := (strLength_eq_zero_iff data).mp h0
    subst this
    simp [isZUGFeRDXML]
  · have hne : data ≠ "" := fun h => h0 (by simp [h, strLength_eq_zero_iff])
    simp only [isZUGFeRDXML, if_neg h0, decide_eq_true_eq, List.countP_pos_iff]
    rw [indicator_transfer (GoStr.toLower data)]
    simp [hne]

theorem isZUGFeRDXML_c6_witness : isZUGFeRDXML "zugferd" = true :=
  (isZUGFeRDXML_c6 "zugferd").mpr
    ⟨by decide, "zugferd", by simp [specIndicators], by decide⟩

/-- C9: the structural-validity predicate holds exactly when the content has an
XML declaration, a case-sensitive root-element marker, and an `xmlns:` token
together with one of the two namespace URIs; hence it is false on empty
input. -/
theorem validateZUGFeRDXML_c9 (data : String) :
    (validateZUGFeRDXML data = true ↔
      (GoStr.contains data "<?xml" = true ∧
        (GoStr.contains data "CrossIndustryDocument" = true ∨
          GoStr.contains data "CrossIndustryInvoice" = true) ∧
        (GoStr.contains data "xmlns:" = true ∧
          (GoStr.contains data "urn:ferd:" = true ∨
            GoStr.contains data "urn:cen.eu:en16931" = true)))) ∧
    validateZUGFeRDXML "" = false := by
  constructor
  · simp [validateZUGFeRDXML, Bool.and_eq_true, Bool.or_eq_true, and_assoc]
  · decide

theorem validateZUGFeRDXML_c9_witness :
    validateZUGFeRDXML "<?xml version=1.0?><rsm:CrossIndustryInvoice xmlns:rsm=,urn:cen.eu:en16931,/>" = true :=
  (validateZUGFeRDXML_c9 _).1.mpr ⟨by decide, Or.inr (by decide), by decide, Or.inr (by decide)⟩

/-- C10: the duplicated classifier implementations agree on every input: the
validator's loose predicate equals the extractor's, and the two strict
predicates are identical. -/
theorem classifier_agreement_c10 (data : String) :
    ValidatorIsZUGFeRDXML data = isZUGFeRDXML data ∧
    ValidatorValidateZUGFeRDXML data = validateZUGFeRDXML data := by
  constructor
  · by_cases h : data.length = 0
    · simp [ValidatorIsZUGFeRDXML, isZUGFeRDXML, h]
    · simp only [ValidatorIsZUGFeRDXML, isZUGFeRDXML, if_neg h]
      exact any_eq_decide_countP indicators _
  · rfl

theorem findSomeAppendCons {α β : Type} (f : α → Option β) (l₁ : List α) (a : α)
    (l₂ : List α) (b : β) (h₁ : ∀ x ∈ l₁, f x = none) (h₂ : f a = some b) :
    (l₁ ++ a :: l₂).findSome? f = some b := by
  induction l₁ with
  | nil => simp [List.findSome?_cons, h₂]
  | cons x xs ih =>
    have hx : f x = none := h₁ x (by simp)
    simp only [List.cons_append, List.findSome?_cons, hx]
    exact ih (fun y hy => h₁ y (by simp [hy]))

theorem findSomeNoneIff {α β : Type} (f : α → Option β) (l : List α) :
    l.findSome? f = none ↔ ∀ x ∈ l, f x = none := by
  induction l with
  | nil => simp
  | cons x xs ih =>
    cases hx : f x with
    | some b => simp [List.findSome?_cons, hx]
    | none => simp [List.findSome?_cons, hx, ih]

theorem findSomeCongr {α β : Type} (f g : α → Option β) (l : List α)
    (h : ∀ a ∈ l, f a = g a) : l.findSome? f = l.findSome? g := by
  induction l with
  | nil => rfl
  | cons x xs ih =>
    have hx : f x = g x := h x (by simp)
    simp only [List.findSome?_cons, hx]
    cases g x with
    | some b => rfl
    | none => exact ih (fun a ha => h a (by simp [ha]))

theorem findQUnique {α : Type} (p : α → Bool) (l : List α) (a : α) (hmem : a ∈ l)
    (hp : p a = true) (huniq : ∀ x ∈ l, p x = true → x = a) : l.find? p = some a := by
  induction l with
  | nil => cases hmem
  | cons x xs ih =>
    by_cases hx : p x = true
    · have hxa : x = a := huniq x (List.mem_cons_self x xs) hx
      subst hxa
      rw [List.find?_cons_of_pos _ hx]
    · have hmem2 : a ∈ xs := by
        rcases List.mem_cons.mp hmem with rfl | h
        · exact absurd hp hx
        · exact h
      rw [List.find?_cons_of_neg _ (by simpa using hx)]
      exact ih hmem2 (fun y hy hpy => huniq y (List.mem_cons_of_mem x hy) hpy)

theorem findQSome {α : Type} (p : α → Bool) {l : List α} {a : α}
    (h : l.find? p = some a) : p a = true := by
  induction l with
  | nil => cases h
  | cons x xs ih =>
    by_cases hx : p x = true
    · rw [List.find?_cons_of_pos _ hx] at h
      cases h
      exact hx
    · rw [List.find?_cons_of_neg _ (by simpa using hx)] at h
      exact ih h

theorem findQMem {α : Type} {p : α → Bool} {l : List α} {a : α}
    (h : l.find? p = some a) : a ∈ l := by
  induction l with
  | nil => cases h
  | cons x xs ih =>
    by_cases hx : p x = true
    · rw [List.find?_cons_of_pos _ hx] at h
      cases h
      exact List.mem_cons_self _ _
    · rw [List.find?_cons_of_neg _ (by simpa using hx)] at h
      exact List.mem_cons_of_mem x (ih h)

theorem findQNoneIff {α : Type} (p : α → Bool) (l : List α) :
    l.find? p = none ↔ ∀ x ∈ l, p x = false := by
  induction l with
  | nil => simp
  | cons x xs ih =>
    by_cases hx : p x = true
    · rw [List.find?_cons_of_pos _ hx]
      simp [hx]
    · rw [List.find?_cons_of_neg _ (by simpa using hx)]
      simp only [List.mem_cons, ih]
      constructor
      · intro h y hy
        rcases hy with rfl | hy
        · simpa using hx
        · exact h y hy
      · intro h y hy
        exact h y (Or.inr hy)

theorem lookupAttPerm (atts1 atts2 : AttachmentSet) (hperm : atts1.Perm atts2)
    (hnd : (atts1.map Prod.fst).Nodup) (name : String) :
    lookupAtt atts1 name = lookupAtt atts2 name := by
  unfold lookupAtt
  have key : atts1.find? (fun p => p.1 == name) = atts2.find? (fun p => p.1 == name) := by
    cases h : atts1.find? (fun p => p.1 == name) with
    | none =>
      have h1 := (findQNoneIff (fun p => p.1 == name) atts1).mp h
      symm
      exact (findQNoneIff _ atts2).mpr (fun x hx => h1 x (hperm.mem_iff.mpr hx))
    | some a =>
      have hpa : (a.1 == name) = true :=
        findQSome (fun q : String × String => q.1 == name) h
      have hmema : a ∈ atts1 := findQMem h
      symm
      apply findQUnique _ _ a (hperm.mem_iff.mp hmema) hpa
      intro x hx hpx
      have hx1 : x ∈ atts1 := hperm.mem_iff.mpr hx
      have e1 : x.1 = name := by simpa using hpx
      have e2 : a.1 = name := by simpa using hpa
      exact List.inj_on_of_nodup_map hnd hx1 hmema (e1.trans e2.symm)
  rw [key]

/-- C1: Discovery scans `KnownXMLFilenames` in order and returns the first
canonically named, sniff-passing attachment; only when no canonical name
matches does it scan for `.xml`-suffixed names; when nothing matches it errors
with every attachment name; and on a set holding both `zugferd-invoice.xml`
and `cii.xml` with passing content it returns `zugferd-invoice.xml`. -/
theorem findZUGFeRDXML_c1 (attachments : AttachmentSet) :
    (∀ pre known post d, KnownXMLFilenames = pre ++ known :: post →
      (∀ k2 ∈ pre, knownNameCandidate attachments k2 = none) →
      knownNameCandidate attachments known = some (d, known) →
      findZUGFeRDXML attachments = Except.ok (d, known))
  ∧ ((∀ k ∈ KnownXMLFilenames, knownNameCandidate attachments k = none) →
      ∀ pre entry post r, attachments = pre ++ entry :: post →
      (∀ q ∈ pre, xmlNameCandidate q = none) →
      xmlNameCandidate entry = some r →
      findZUGFeRDXML attachments = Except.ok r)
  ∧ ((∀ k ∈ KnownXMLFilenames, knownNameCandidate attachments k = none) →
      (∀ entry ∈ attachments, xmlNameCandidate entry = none) →
      findZUGFeRDXML attachments = Except.error (attachments.map Prod.fst))
  ∧ findZUGFeRDXML demoBothCanonical = Except.ok ("zugferd content", "zugferd-invoice.xml") := by
  refine ⟨?_, ?_, ?_, ?_⟩
  · intro pre known post d hsplit hpre hknown
    have h1 : findByKnownName attachments = some (d, known) := by
      unfold findByKnownName
      rw [hsplit]
      exact findSomeAppendCons (knownNameCandidate attachments) pre known post (d, known) hpre hknown
    simp [findZUGFeRDXML, h1]
  · intro hnone pre entry post r hsplit hpre hentry
    have h1 : findByKnownName attachments = none :=
      (findSomeNoneIff (knownNameCandidate attachments) KnownXMLFilenames).mpr hnone
    have h2 : findByXmlName attachments = some r := by
      unfold findByXmlName
      rw [hsplit]
      exact findSomeAppendCons xmlNameCandidate pre entry post r hpre hentry
    simp [findZUGFeRDXML, h1, h2]
  · intro hnone hxml
    have h1 : findByKnownName attachments = none :=
      (findSomeNoneIff (knownNameCandidate attachments) KnownXMLFilenames).mpr hnone
    have h2 : findByXmlName attachments = none :=
      (findSomeNoneIff xmlNameCandidate attachments).mpr hxml
    simp [findZUGFeRDXML, h1, h2]
  · rfl

theorem findZUGFeRDXML_c1_witness :
    findZUGFeRDXML demoPriorityAtts = Except.ok ("factur-x body", "factur-x.xml") :=
  (findZUGFeRDXML_c1 demoPriorityAtts).1 ["ZUGFeRD-invoice.xml", "zugferd-invoice.xml"]
    "factur-x.xml" ["xrechnung.xml", "cii.xml"] "factur-x body" (by decide) (by decide)
    (by decide)

/-- C3 counterexample: the same attachment map, iterated in its two possible
orders, makes Discovery return two different candidates when two non-canonical
`.xml` attachments both pass the sniff predicate. -/
theorem findZUGFeRDXML_c3_counterexample :
    ndA.Perm ndB ∧ (ndA.map Prod.fst).Nodup ∧
    findZUGFeRDXML ndA = Except.ok ("zugferd", "a.xml") ∧
    findZUGFeRDXML ndB = Except.ok ("xrechnung", "b.xml") :=
  ⟨List.Perm.swap _ _ _, by decide, rfl, rfl⟩

/-- C3 (amended): Discovery is order-independent whenever some canonical name
is present with sniff-passing bytes — any two iteration orders of the same
attachment map (a permutation with duplicate-free names) give the same
result. -/
theorem findZUGFeRDXML_c3_amended (atts1 atts2 : AttachmentSet) (hperm : atts1.Perm atts2)
    (hnd : (atts1.map Prod.fst).Nodup) (k : String) (hk : k ∈ KnownXMLFilenames)
    (d : String) (hlk : lookupAtt atts1 k = some d) (hpass : isZUGFeRDXML d = true) :
    findZUGFeRDXML atts1 = findZUGFeRDXML atts2 := by
  have hl : ∀ name, lookupAtt atts1 name = lookupAtt atts2 name :=
    lookupAttPerm atts1 atts2 hperm hnd
  have hcand : knownNameCandidate atts1 k = some (d, k) := by
    simp [knownNameCandidate, hlk, hpass]
  have hcongr : findByKnownName atts1 = findByKnownName atts2 := by
    unfold findByKnownName
    apply findSomeCongr
    intro a _
    unfold knownNameCandidate
    rw [hl a]
  have hne : findByKnownName atts1 ≠ none := by
    intro hzero
    have hz := (findSomeNoneIff (knownNameCandidate atts1) KnownXMLFilenames).mp hzero k hk
    rw [hcand] at hz
    cases hz
  obtain ⟨r, hr⟩ := Option.ne_none_iff_exists'.mp hne
  have hr2 : findByKnownName atts2 = some r := hcongr ▸ hr
  simp [findZUGFeRDXML, hr, hr2]

theorem findZUGFeRDXML_c3_witness : findZUGFeRDXML wA = findZUGFeRDXML wB :=
  findZUGFeRDXML_c3_amended wA wB (List.Perm.swap _ _ _) (by decide) "factur-x.xml"
    (by decide) "factur-x body" (by decide) (by decide)

/-- C2 counterexample: with the Standard strategy completing without error but
returning zero attachments, the chain does not fall through to the non-empty
Relaxed result, as the claim states it would; it aborts with the
no-embedded-files outcome. -/
theorem extractXMLChain_c2_counterexample :
    extractXMLChain (Except.ok []) (Except.ok goodAtts) (Except.ok goodAtts) =
      ChainOutcome.noEmbedded ∧
    extractXMLChain (Except.ok []) (Except.ok goodAtts) (Except.ok goodAtts) ≠
      ChainOutcome.proceed goodAtts := by
  constructor
  · rfl
  · decide

/-- C2 (amended): the chain tries Standard, Relaxed, Manual in that order and
stops at the first strategy that completes without error (errors fall through;
three errors aggregate); the emptiness of the returned set is only checked
after the chain stops, so an error-free empty result ends the extraction with
the no-embedded-files outcome instead of falling through. -/
theorem extractXMLChain_c2_amended (standard relaxed manual : Except String AttachmentSet) :
    (∀ atts, standard = Except.ok atts →
      extractXMLChain standard relaxed manual =
        (if atts.length = 0 then ChainOutcome.noEmbedded else ChainOutcome.proceed atts))
  ∧ (∀ e atts, standard = Except.error e → relaxed = Except.ok atts →
      extractXMLChain standard relaxed manual =
        (if atts.length = 0 then ChainOutcome.noEmbedded else ChainOutcome.proceed atts))
  ∧ (∀ e1 e2 atts, standard = Except.error e1 → relaxed = Except.error e2 →
      manual = Except.ok atts →
      extractXMLChain standard relaxed manual =
        (if atts.length = 0 then ChainOutcome.noEmbedded else ChainOutcome.proceed atts))
  ∧ (∀ e1 e2 e3, standard = Except.error e1 → relaxed = Except.error e2 →
      manual = Except.error e3 →
      extractXMLChain standard relaxed manual =
        ChainOutcome.allFailed ("alle Extraktionsmethoden fehlgeschlagen: " ++ e3)) := by
  refine ⟨?_, ?_, ?_, ?_⟩
  · rintro atts rfl
    rfl
  · rintro e atts rfl rfl
    rfl
  · rintro e1 e2 atts rfl rfl rfl
    rfl
  · rintro e1 e2 e3 rfl rfl rfl
    rfl

theorem extractXMLChain_c2_witness :
    extractXMLChain (Except.error "parse failure") (Except.ok goodAtts)
      (Except.error "unused") = ChainOutcome.proceed goodAtts := by
  have h := (extractXMLChain_c2_amended (Except.error "parse failure") (Except.ok goodAtts)
    (Except.error "unused")).2.1 "parse failure" goodAtts rfl rfl
  rw [h]
  decide

theorem strLength_mk (l : List Char) : (String.mk l).length = l.length := rfl

theorem strData_mk (l : List Char) : (String.mk l).data = l := rfl

theorem endStep_le (content : String) (endPos : Nat) (pattern : String) :
    endCandidateStep content endPos pattern ≤ endPos := by
  unfold endCandidateStep
  cases GoStr.index content pattern with
  | none => exact le_refl _
  | some idx =>
    simp only []
    split <;> omega

theorem endStep_cases (content : String) (endPos : Nat) (pattern : String) :
    endCandidateStep content endPos pattern = endPos ∨
    candEnd content pattern = some (endCandidateStep content endPos pattern) := by
  unfold endCandidateStep candEnd
  cases GoStr.index content pattern with
  | none => exact Or.inl rfl
  | some idx =>
    by_cases hlt : idx + pattern.length < endPos
    · right
      simp [hlt]
    · left
      simp [hlt]

theorem endStep_le_cand (content : String) (endPos : Nat) (pattern : String) (e : Nat)
    (h : candEnd content pattern = some e) :
    endCandidateStep content endPos pattern ≤ e := by
  unfold candEnd at h
  unfold endCandidateStep
  cases hidx : GoStr.index content pattern with
  | none =>
    rw [hidx] at h
    cases h
  | some idx =>
    rw [hidx] at h
    simp only [Option.map_some'] at h
    cases h
    simp only []
    split <;> omega

theorem foldEnd_le (content : String) (l : List String) (init : Nat) :
    l.foldl (endCandidateStep content) init ≤ init := by
  induction l generalizing init with
  | nil => exact le_refl _
  | cons p t ih =>
    simp only [List.foldl_cons]
    exact le_trans (ih (endCandidateStep content init p)) (endStep_le content init p)

theorem foldEnd_cases (content : String) (l : List String) (init : Nat) :
    l.foldl (endCandidateStep content) init = init ∨
    ∃ p ∈ l, candEnd content p = some (l.foldl (endCandidateStep content) init) := by
  induction l generalizing init with
  | nil => exact Or.inl rfl
  | cons q t ih =>
    simp only [List.foldl_cons]
    rcases ih (endCandidateStep content init q) with h | ⟨p, hp, hc⟩
    · rcases endStep_cases content init q with h2 | h2
      · left
        rw [h, h2]
      · right
        refine ⟨q, by simp, ?_⟩
        rw [h]
        exact h2
    · right
      exact ⟨p, by simp [hp], hc⟩

theorem foldEnd_le_cand (content : String) (l : List String) (init : Nat) :
    ∀ p ∈ l, ∀ e, candEnd content p = some e →
      l.foldl (endCandidateStep content) init ≤ e := by
  induction l generalizing init with
  | nil =>
    intro p hp
    cases hp
  | cons q t ih =>
    intro p hp e hc
    simp only [List.foldl_cons]
    rcases List.mem_cons.mp hp with rfl | hmem
    · exact le_trans (foldEnd_le content t _) (endStep_le_cand content init p e hc)
    · exact ih _ p hmem e hc

theorem mapInsert_forall {P : String × String → Prop} (attachments : AttachmentSet)
    (k v : String) (h1 : ∀ a ∈ attachments, P a) (h2 : P (k, v)) :
    ∀ a ∈ mapInsert attachments k v, P a := by
  intro a ha
  unfold mapInsert at ha
  split at ha
  · obtain ⟨p, hp, he⟩ := List.mem_map.mp ha
    by_cases hk : (p.1 == k) = true
    · rw [if_pos hk] at he
      exact he ▸ h2
    · rw [if_neg hk] at he
      exact he ▸ h1 p hp
  · rcases List.mem_append.mp ha with h | h
    · exact h1 a h
    · have : a = (k, v) := by simpa using h
      exact this ▸ h2

theorem manualFold_forall (data : String) (l : List String) (init : AttachmentSet)
    (h : ∀ a ∈ init, isZUGFeRDXML a.2 = true) :
    ∀ a ∈ l.foldl (manualStep data) init, isZUGFeRDXML a.2 = true := by
  induction l generalizing init with
  | nil => exact h
  | cons q t ih =>
    simp only [List.foldl_cons]
    apply ih
    unfold manualStep
    cases GoStr.index data q with
    | none => exact h
    | some idx =>
      simp only []
      split
      next hcond =>
        apply mapInsert_forall _ _ _ h
        exact ((Bool.and_eq_true _ _).mp hcond).2
      next => exact h

/-- C7: whenever the byte-scan fallback extracts a slice from a start-marker
position, the slice is the prefix of the remaining content ending exactly at
the smallest end offset (closing tag included) over all four closing-tag
patterns, irrespective of tag family; and every attachment surviving the
manual extraction passes the sniff predicate. -/
theorem extractXMLFromPosition_c7 (data : String) (startPos : Nat) :
    (∀ s, extractXMLFromPosition data startPos = s → s ≠ "" →
      (∃ p ∈ endPatterns,
        candEnd (String.mk (data.data.drop startPos)) p = some s.length) ∧
      (∀ p ∈ endPatterns, ∀ e,
        candEnd (String.mk (data.data.drop startPos)) p = some e → s.length ≤ e) ∧
      s.data = (data.data.drop startPos).take s.length)
  ∧ (∀ atts, extractAttachmentsManual data = Except.ok atts →
      ∀ a ∈ atts, isZUGFeRDXML a.2 = true) := by
  constructor
  · intro s hs hne
    simp only [extractXMLFromPosition] at hs
    split at hs
    next hguard => exact absurd hs.symm hne
    next hguard =>
      split at hs
      next hlt =>
        simp only [strLength_mk] at hs hlt
        have hsl : s.length =
            endPatterns.foldl (endCandidateStep (String.mk (data.data.drop startPos)))
              (data.data.drop startPos).length := by
          rw [← hs]
          simp only [strLength_mk, List.length_take]
          omega
        refine ⟨?_, ?_, ?_⟩
        · rcases foldEnd_cases (String.mk (data.data.drop startPos)) endPatterns
            (data.data.drop startPos).length with h | ⟨p, hp, hc⟩
          · rw [h] at hlt
            exact absurd hlt (lt_irrefl _)
          · rw [hsl]
            exact ⟨p, hp, hc⟩
        · intro p hp e hc
          rw [hsl]
          exact foldEnd_le_cand (String.mk (data.data.drop startPos)) endPatterns
            (data.data.drop startPos).length p hp e hc
        · rw [← hs]
          simp only [strData_mk, strLength_mk, List.length_take]
          rw [Nat.min_eq_left (le_of_lt hlt)]
      next hlt => exact absurd hs.symm hne
  · intro atts hatts a ha
    simp only [extractAttachmentsManual] at hatts
    split at hatts
    next => simp at hatts
    next =>
      have hatts2 : xmlStartPatterns.foldl (manualStep data) [] = atts := by
        injection hatts
      refine manualFold_forall data xmlStartPatterns [] ?_ a (hatts2 ▸ ha)
      intro x hx
      cases hx

theorem extractXMLFromPosition_c7_witness :
    (extractXMLFromPosition demoManual 0).length ≤ 50 :=
  ((extractXMLFromPosition_c7 demoManual 0).1 (extractXMLFromPosition demoManual 0) rfl
    (by decide)).2.1 "</CrossIndustryInvoice>" (by decide) 50 (by decide)

theorem isStandardIff (name : String) :
    isStandardXMLFilename name = true ↔ name ∈ KnownXMLFilenames := by
  simp only [isStandardXMLFilename, List.any_eq_true]
  constructor
  · rintro ⟨k, hk, he⟩
    have : name = k := by simpa using he
    exact this ▸ hk
  · intro h
    exact ⟨name, h, by simp⟩

/-- C8: the single-document output path is the configured path verbatim when
one is set; otherwise it is the container's directory joined with the
discovered name when that name is canonical, and with the container stem plus
`.xml` otherwise — with the claim's two concrete instances. -/
theorem generateOutputPath_c8 :
    (∀ z : ZUGFeRDExtractor, ∀ name, z.OutputPath ≠ "" →
      generateOutputPath z name = z.OutputPath)
  ∧ (∀ z : ZUGFeRDExtractor, ∀ name, z.OutputPath = "" → name ∈ KnownXMLFilenames →
      generateOutputPath z name = filepathJoin (filepathDir z.InputPath) name)
  ∧ (∀ z : ZUGFeRDExtractor, ∀ name, z.OutputPath = "" → name ∉ KnownXMLFilenames →
      generateOutputPath z name =
        filepathJoin (filepathDir z.InputPath)
          (GoStr.trimSuffix (filepathBase z.InputPath) (filepathExt z.InputPath) ++ ".xml"))
  ∧ generateOutputPath ⟨"dir/invoice.pdf", "", false⟩ "zugferd-invoice.xml" =
      "dir/zugferd-invoice.xml"
  ∧ generateOutputPath ⟨"dir/invoice.pdf", "", false⟩ "weird123.xml" = "dir/invoice.xml" := by
  refine ⟨?_, ?_, ?_, ?_, ?_⟩
  · intro z name h
    simp [generateOutputPath, h]
  · intro z name h hmem
    have hstd : isStandardXMLFilename name = true := (isStandardIff name).mpr hmem
    simp [generateOutputPath, h, hstd]
  · intro z name h hmem
    have hstd : isStandardXMLFilename name = false := by
      cases hb : isStandardXMLFilename name with
      | false => rfl
      | true => exact absurd ((isStandardIff name).mp hb) hmem
    simp [generateOutputPath, h, hstd]
  · rfl
  · rfl

theorem generateOutputPath_c8_witness :
    generateOutputPath ⟨"a.pdf", "out.xml", false⟩ "b.xml" = "out.xml" :=
  generateOutputPath_c8.1 ⟨"a.pdf", "out.xml", false⟩ "b.xml" (by decide)

theorem countP_add_countP_not {α : Type} (p : α → Bool) (l : List α) :
    l.countP p + l.countP (fun a => !(p a)) = l.length := by
  induction l with
  | nil => simp
  | cons a t ih =>
    by_cases h : p a = true <;>
      simp only [List.countP_cons, h, List.length_cons, Bool.not_true, Bool.not_false,
        if_true, if_false, Bool.false_eq_true, Bool.true_eq_false, ← ih] <;>
      omega

/-- C4: the batch coordinator queues exactly the glob entries whose extension
is `.pdf` (case-insensitive), so a non-`.pdf` entry never enters the worker
queue and the tallies sum over the queue only; an empty filtered set fails
before any worker is spawned; and the claim's `{a.pdf, b.pdf, c.txt}` run
reports 2 processed, 1 success, 1 failure. -/
theorem processBatch_c4 (bp : BatchProcessor) (files : List String)
    (extractOk : String → Bool) :
    (processBatch bp files extractOk = BatchOutcome.noInputs ↔
      pdfFilter files = [])
  ∧ (∀ q s c, processBatch bp files extractOk = BatchOutcome.run q s c →
      q = pdfFilter files ∧ s + c = q.length ∧
      ∀ f ∈ files, isPdfFile f = false → f ∉ q)
  ∧ processBatch bp ["a.pdf", "b.pdf", "c.txt"] demoExtractOk =
      BatchOutcome.run ["a.pdf", "b.pdf"] 1 1 := by
  refine ⟨?_, ?_, ?_⟩
  · unfold processBatch
    split
    next hglob =>
      have : files = [] := List.length_eq_zero.mp hglob
      subst this
      simp [pdfFilter]
    next hglob =>
      split
      next hemp =>
        simp [List.length_eq_zero.mp hemp]
      next hemp =>
        have hne : pdfFilter files ≠ [] := fun he => hemp (by rw [he]; rfl)
        simp [hne]
  · intro q s c h
    unfold processBatch at h
    split at h
    next => simp at h
    next =>
      split at h
      next => simp at h
      next =>
        rw [BatchOutcome.run.injEq] at h
        obtain ⟨hq, hsc, hcc⟩ := h
        refine ⟨hq.symm, ?_, ?_⟩
        · rw [← hsc, ← hcc, ← hq]
          exact countP_add_countP_not extractOk (pdfFilter files)
        · intro f hf hnp hfq
          rw [← hq] at hfq
          have hm := List.mem_filter.mp hfq
          rw [hnp] at hm
          exact absurd hm.2 (by simp)
  · rfl

theorem processBatch_c4_witness :
    processBatch demoBp ["a.pdf", "b.pdf", "c.txt"] demoExtractOk =
      BatchOutcome.run ["a.pdf", "b.pdf"] 1 1 ∧
    "c.txt" ∉ ["a.pdf", "b.pdf"] := by
  have h := processBatch_c4 demoBp ["a.pdf", "b.pdf", "c.txt"] demoExtractOk
  have h2 := h.2.1 ["a.pdf", "b.pdf"] 1 1 h.2.2
  exact ⟨h.2.2, h2.2.2 "c.txt" (by decide) (by decide)⟩

theorem strData_append (s t : String) : (s ++ t).data = s.data ++ t.data := rfl

theorem strAppendNeEmptyLeft (s t : String) (hs : s ≠ "") : s ++ t ≠ "" := by
  intro h
  have h2 : (s ++ t).data = ([] : List Char) := by rw [h]
  rw [strData_append] at h2
  have h3 := List.append_eq_nil.mp h2
  refine hs ((strLength_eq_zero_iff s).mp ?_)
  show s.data.length = 0
  rw [h3.1]
  rfl

theorem strAppendNeEmptyRight (s t : String) (ht : t ≠ "") : s ++ t ≠ "" := by
  intro h
  have h2 : (s ++ t).data = ([] : List Char) := by rw [h]
  rw [strData_append] at h2
  have h3 := List.append_eq_nil.mp h2
  refine ht ((strLength_eq_zero_iff t).mp ?_)
  show t.data.length = 0
  rw [h3.2]
  rfl

theorem joinNeEmpty (dir name : String) (hd : dir ≠ "") (hn : name ≠ "") :
    filepathJoin dir name ≠ "" := by
  unfold filepathJoin
  split
  · exact hn
  · split
    · exact hn
    · split
      · exact strAppendNeEmptyLeft dir name hd
      · exact strAppendNeEmptyLeft (dir ++ "/") name (strAppendNeEmptyLeft dir "/" hd)

/-- C5: with a batch output directory configured, the worker points the
extractor at `<container-stem>.xml` inside that directory and the write goes
there verbatim; with none configured the worker passes an empty output path,
so each input follows the single-document default rule — with concrete
instances for both branches. -/
theorem workerOutputPath_c5 (bp : BatchProcessor) (filename discoveredName : String) :
    (bp.OutputDir ≠ "" → workerOutputPath bp filename discoveredName =
      filepathJoin bp.OutputDir
        (GoStr.trimSuffix (filepathBase filename) (filepathExt (filepathBase filename)) ++ ".xml"))
  ∧ (bp.OutputDir = "" → workerOutputPath bp filename discoveredName =
      generateOutputPath ⟨filename, "", bp.Verbose⟩ discoveredName)
  ∧ workerOutputPath ⟨"*.pdf", "out", 4, false⟩ "dir/invoice.pdf" "weird123.xml" =
      "out/invoice.xml"
  ∧ workerOutputPath ⟨"*.pdf", "", 4, false⟩ "dir/invoice.pdf" "zugferd-invoice.xml" =
      "dir/zugferd-invoice.xml" := by
  refine ⟨?_, ?_, ?_, ?_⟩
  · intro h
    have hset : workerOutputSetting bp filename =
        filepathJoin bp.OutputDir
          (GoStr.trimSuffix (filepathBase filename)
            (filepathExt (filepathBase filename)) ++ ".xml") := by
      simp [workerOutputSetting, h]
    have hJ : workerOutputSetting bp filename ≠ "" := by
      rw [hset]
      exact joinNeEmpty bp.OutputDir _ h
        (strAppendNeEmptyRight _ ".xml" (by decide))
    rw [← hset]
    simp [workerOutputPath, generateOutputPath, hJ]
  · intro h
    simp [workerOutputPath, workerOutputSetting, h]
  · rfl
  · rfl

theorem workerOutputPath_c5_witness :
    workerOutputPath ⟨"*.pdf", "outdir", 2, true⟩ "x/y.pdf" "cii.xml" =
      filepathJoin "outdir"
        (GoStr.trimSuffix (filepathBase "x/y.pdf")
          (filepathExt (filepathBase "x/y.pdf")) ++ ".xml") :=
  (workerOutputPath_c5 ⟨"*.pdf", "outdir", 2, true⟩ "x/y.pdf" "cii.xml").1 (by decide)
